import Mathlib

/-!
Verification development for the kon-blog-api worker.

Shallow embedding of the view-count pipeline (`src/db/pageviews`,
`src/routes/pageviews`), the comment pipeline (`src/db/comments`,
`src/routes/comments`, `src/utils/ratelimit`) and the spam scorer
(`src/utils/spamfilter.ts`).

Modelling conventions:
* JS strings are Lean `String`s; string length is measured in characters
  (code points) rather than UTF-16 code units, and `toLowerCase` is modelled
  as per-character ASCII lowercasing; all string data relevant to the claims
  is ASCII.
* D1 tables are modelled as functions or lists; KV namespaces as
  `String → Option _` maps.  Timestamps are `Nat`s.
* Detached (`waitUntil`) cache writes are modelled as landing before the
  next boundary operation, matching sequential call semantics.
-/

namespace KonBlog

/-! ### Spam filter (`src/utils/spamfilter.ts`) -/

/-- Per-character ASCII lowercasing, modelling `String.prototype.toLowerCase`. -/
def lowerChars (l : List Char) : List Char := l.map Char.toLower

/-- The `SPAM_KEYWORDS` denylist, verbatim from the source. -/
def SPAM_KEYWORDS : List String :=
  ["viagra", "casino", "poker", "lottery", "click here", "buy now",
   "make money", "earn extra cash", "weight loss", "diet pill", "credit card",
   "free gift", "act now", "limited time", "urgent", "winner", "congratulations"]

/-- Characters matched by the JS regex `.` (anything but a line terminator). -/
def jsDotChar (c : Char) : Bool :=
  !(c = Char.ofNat 10 || c = Char.ofNat 13 || c = Char.ofNat 0x2028 || c = Char.ofNat 0x2029)

/-- Characters in the JS `\s` class (also the set removed by `trim`). -/
def jsWhitespaceChar (c : Char) : Bool :=
  c = ' ' || c = Char.ofNat 9 || c = Char.ofNat 10 || c = Char.ofNat 11 ||
  c = Char.ofNat 12 || c = Char.ofNat 13 || c = Char.ofNat 0xa0 || c = Char.ofNat 0x1680 ||
  (decide (0x2000 ≤ c.toNat) && decide (c.toNat ≤ 0x200a)) ||
  c = Char.ofNat 0x2028 || c = Char.ofNat 0x2029 || c = Char.ofNat 0x202f ||
  c = Char.ofNat 0x205f || c = Char.ofNat 0x3000 || c = Char.ofNat 0xfeff

/-- Substring test, modelling `String.prototype.includes`: `needle` occurs
contiguously in `hay`. -/
def includesList (needle hay : List Char) : Bool :=
  hay.tails.any fun t => needle.isPrefixOf t

/-- The characters of `"https://"`. -/
def httpsMark : List Char := "https://".data

/-- The characters of `"http://"`. -/
def httpMark : List Char := "http://".data

/-- Fuel-indexed scanner for `countLinks`; the fuel (one unit per consumed
character, initially the length of the list) only makes the recursion
structural and never runs out. -/
def countLinksAux : Nat → List Char → Nat
  | 0, _ => 0
  | _, [] => 0
  | fuel + 1, c :: rest =>
    if httpsMark.isPrefixOf (c :: rest) then 1 + countLinksAux fuel (rest.drop 7)
    else if httpMark.isPrefixOf (c :: rest) then 1 + countLinksAux fuel (rest.drop 6)
    else countLinksAux fuel rest

/-- Number of matches of the JS global regex `https?:\/\//g` in the content.
Mirrors the scan of `String.prototype.match`: at each position the scheme is
matched greedily (`https` before `http`) and the scanner resumes after the
match; matches of this pattern can never overlap. -/
def countLinks (l : List Char) : Nat := countLinksAux l.length l

/-- Helper for the `SUSPICIOUS_LINKS` regex: after a scheme, up to ten
`.`-matching characters followed by the literal pattern `pat`. -/
def shortenerAfterScheme (pat : List Char) (rest : List Char) : Bool :=
  (List.range 11).any fun k =>
    ((rest.take k).all jsDotChar) && pat.isPrefixOf (rest.drop k)

/-- One alternative of the `SUSPICIOUS_LINKS` regex matching at the head of
the (already lowercased) list. -/
def susLinkAt (l : List Char) : Bool :=
  ("[url=".data).isPrefixOf l ||
  (httpsMark.isPrefixOf l &&
    (shortenerAfterScheme ("bit.ly".data) (l.drop 8) ||
     shortenerAfterScheme ("tinyurl".data) (l.drop 8))) ||
  (httpMark.isPrefixOf l &&
    (shortenerAfterScheme ("bit.ly".data) (l.drop 7) ||
     shortenerAfterScheme ("tinyurl".data) (l.drop 7)))

/-- The test `SUSPICIOUS_LINKS.test(content)`: the case-insensitive regex
`\[url=|http[s]?:\/\/.{0,10}bit\.ly|http[s]?:\/\/.{0,10}tinyurl` matches
somewhere in the content.  The argument is the lowercased content, which
models the `i` flag. -/
def susLink (l : List Char) : Bool := l.tails.any susLinkAt

/-- Length of the maximal run of non-whitespace characters at the head
(the greedy `\S+`). -/
def nonWSLen (l : List Char) : Nat := (l.takeWhile (fun c => !jsWhitespaceChar c)).length

/-- Length of the match of `https?:\/\/\S+` at the head of the list, or 0 if
there is no match there.  `\S+` requires at least one non-whitespace
character after the scheme. -/
def linkMatchLen (l : List Char) : Nat :=
  if httpsMark.isPrefixOf l then
    (if 0 < nonWSLen (l.drop 8) then 8 + nonWSLen (l.drop 8) else 0)
  else if httpMark.isPrefixOf l then
    (if 0 < nonWSLen (l.drop 7) then 7 + nonWSLen (l.drop 7) else 0)
  else 0

/-- Fuel-indexed scanner for `stripLinks`; the fuel (initially the length of
the list) only makes the recursion structural and never runs out. -/
def stripLinksAux : Nat → List Char → List Char
  | 0, l => l
  | _, [] => []
  | fuel + 1, c :: rest =>
    if 0 < linkMatchLen (c :: rest) then stripLinksAux fuel ((c :: rest).drop (linkMatchLen (c :: rest)))
    else c :: stripLinksAux fuel rest

/-- Models `content.replace(/https?:\/\/\S+/g, "")`: remove every link match,
scanning left to right. -/
def stripLinks (l : List Char) : List Char := stripLinksAux l.length l

/-- Models `String.prototype.trim`: drop whitespace from both ends. -/
def trimJS (l : List Char) : List Char :=
  ((l.dropWhile jsWhitespaceChar).reverse.dropWhile jsWhitespaceChar).reverse

/-- The keyword loop of `checkSpam`: `+2` for each denylist keyword that is a
substring of the lowercased content. -/
def keywordFold (lowerContent : List Char) : Nat :=
  SPAM_KEYWORDS.foldl (fun score k => if includesList k.data lowerContent then score + 2 else score) 0

/-- Result record of `checkSpam` (the TS `SpamCheckResult`). -/
structure SpamCheckResult where
  isSpam : Bool
  reason : Option String
  score : Nat
deriving Repr, DecidableEq

/-- The `checkSpam` function, translated statement by statement from
`src/utils/spamfilter.ts`.  The author name is lowercased but never used by
any rule, exactly as in the source. -/
def checkSpam (content authorName : String) : SpamCheckResult :=
  let lowerContent := lowerChars content.data
  let _lowerName := lowerChars authorName.data
  let s1 := keywordFold lowerContent
  let s2 := if susLink lowerContent then s1 + 3 else s1
  let linkCount := countLinks content.data
  let s3 := if 3 < linkCount then s2 + linkCount else s2
  let s4 := if content.data.length < 5 then s3 + 1 else s3
  let s5 := if 5000 < content.data.length then s4 + 1 else s4
  let textWithoutLinks := trimJS (stripLinks content.data)
  let s6 := if textWithoutLinks.length < 10 ∧ 0 < linkCount then s5 + 3 else s5
  if 3 ≤ s6 then { isSpam := true, reason := some ("疑似垃圾内容"), score := s6 }
  else { isSpam := false, reason := none, score := s6 }

/-- Modelled from the spec: the spam score as the specification words it — a
sum of five independent rule contributions (spec §4.4 / claim C5). -/
def specSpamScore (content : String) : Nat :=
  2 * (SPAM_KEYWORDS.countP fun k => includesList k.data (lowerChars content.data)) +
  (if susLink (lowerChars content.data) then 3 else 0) +
  (if 3 < countLinks content.data then countLinks content.data else 0) +
  (if content.data.length < 5 ∨ 5000 < content.data.length then 1 else 0) +
  (if (trimJS (stripLinks content.data)).length < 10 ∧ 0 < countLinks content.data then 3 else 0)

/-- Modelled from the spec: `isSpam` iff the total score reaches the fixed
threshold 3. -/
def specIsSpam (content : String) : Bool := decide (3 ≤ specSpamScore content)

/-! ### Durable counter store (`src/db/pageviews.ts`, `PageViewRepository`) -/

/-- The `page_views` table: slug → view_count for rows that exist
(`updated_at` is elided; no claim depends on it). -/
abbrev ViewStore := String → Option Nat

/-- Pointwise update of a string-keyed map. -/
def upd {α : Type} (f : String → Option α) (k : String) (v : α) : String → Option α :=
  fun s => if s = k then some v else f s

/-- The method `PageViewRepository.increment`: the single SQL statement
`INSERT ... ON CONFLICT(slug) DO UPDATE SET view_count = view_count + 1 ... RETURNING view_count`.
One atomic storage operation: it inserts the row at 1 when absent, otherwise
adds 1, and returns the resulting count, all as one step of the model. -/
def PageViewRepository.increment (st : ViewStore) (slug : String) : Nat × ViewStore :=
  match st slug with
  | none => (1, upd st slug 1)
  | some n => (n + 1, upd st slug (n + 1))

/-- The method `PageViewRepository.get`: `SELECT view_count ... WHERE slug = ?`, with 0
for a missing row (`result?.view_count ?? 0`). -/
def PageViewRepository.get (st : ViewStore) (slug : String) : Nat := (st slug).getD 0

/-- Association-list form of a JS object mapping slugs to counts. -/
abbrev ViewMap := List (String × Nat)

/-- The method `PageViewRepository.getMany`: `SELECT slug, view_count ... WHERE slug IN (...)`,
one entry per requested slug that has a row (a duplicate requested slug can
yield a duplicate entry carrying the same count, which is irrelevant to the
object lookups performed on the result). -/
def PageViewRepository.getMany (st : ViewStore) (slugs : List String) : ViewMap :=
  slugs.filterMap fun s => (st s).map fun v => (s, v)

/-- An interleaved schedule of increments, each a single atomic step. -/
def applySchedule (st : ViewStore) (sched : List String) : ViewStore :=
  sched.foldl (fun s slug => (PageViewRepository.increment s slug).2) st

/-! ### View-route rate limiter and routes (`src/routes/pageviews.ts`, KV version) -/

/-- The `rate_limits` table: key → `created_at` (seconds). -/
abbrev RateStore := String → Option Nat

/-- Five minutes, the dedup window of the view-route `checkRateLimit`. -/
def VIEW_RATE_WINDOW : Nat := 300

/-- The rate-limit key `ipHash:slug` built by the route. -/
def viewKey (ipHash slug : String) : String := ipHash ++ ":" ++ slug

/-- The view-route `checkRateLimit`: a record with `created_at` strictly
inside the 5-minute window denies the request; otherwise the request is
allowed and the record is created or refreshed (`INSERT OR REPLACE`) as part
of the admission decision. -/
def PageviewsRoute.checkRateLimit (rl : RateStore) (now : Nat) (ipHash slug : String) :
    (Bool × Nat) × RateStore :=
  match rl (viewKey ipHash slug) with
  | some t =>
    if now < t + VIEW_RATE_WINDOW then ((false, 0), rl)
    else ((true, 1), upd rl (viewKey ipHash slug) now)
  | none => ((true, 1), upd rl (viewKey ipHash slug) now)

/-- Combined backend state seen by the pageviews routes: the D1 tables plus
the two kinds of KV entries (single-slug `views:v1:` values and parsed
batch-aggregate `views:batch:v1:` objects). -/
structure SysState where
  views : ViewStore
  rates : RateStore
  kvSingle : String → Option Nat
  kvBatch : String → Option ViewMap

/-- Slug validation of `POST /:slug`: nonempty, at most 500 characters, no
`..`, not starting with `/`. -/
def validSlug (slug : String) : Bool :=
  !(decide (slug.data = []) || decide (500 < slug.data.length)
    || includesList ("..".data) slug.data || ("/".data).isPrefixOf slug.data)

/-- Responses of `POST /:slug`.  `invalidSlug` is the 400 response;
`rateLimited` is the HTTP 200 `success: true, cached: true` response
carrying the current count; `counted` is the HTTP 200 response after an
increment. -/
inductive PostViewResponse
  | invalidSlug
  | rateLimited (view_count : Nat)
  | counted (view_count : Nat)
deriving Repr, DecidableEq

/-- The `POST /:slug` handler (KV double-write version): validate, rate
limit; on denial read the current count (KV first, then D1) without writing;
on admission increment D1 and write the new count through to KV (the
detached `waitUntil` write is modelled as having landed). -/
def postView (st : SysState) (now : Nat) (ipHash slug : String) :
    PostViewResponse × SysState :=
  if !validSlug slug then (.invalidSlug, st)
  else
    match PageviewsRoute.checkRateLimit st.rates now ipHash slug with
    | ((false, _), _) =>
      let count := match st.kvSingle slug with
        | some n => n
        | none => PageViewRepository.get st.views slug
      (.rateLimited count, st)
    | ((true, _), rates1) =>
      let (count, views1) := PageViewRepository.increment st.views slug
      (.counted count,
       { st with views := views1, rates := rates1, kvSingle := upd st.kvSingle slug count })

/-- Responses of `GET /:slug`. -/
inductive GetViewResponse
  | invalidSlug
  | ok (view_count : Nat)
deriving Repr, DecidableEq

/-- The `GET /:slug` handler: validate (nonempty, length ≤ 500), then read
KV, falling back to D1 with an asynchronous KV backfill (modelled as
landed). -/
def getViewRoute (st : SysState) (slug : String) : GetViewResponse × SysState :=
  if decide (slug.data = []) || decide (500 < slug.data.length) then (.invalidSlug, st)
  else
    match st.kvSingle slug with
    | some n => (.ok n, st)
    | none =>
      let n := PageViewRepository.get st.views slug
      (.ok n, { st with kvSingle := upd st.kvSingle slug n })

/-- N sequential `POST /:slug` calls for the same slug, one per listed
identity (in order, all at time `now`). -/
def runIncrements (st : SysState) (now : Nat) (slug : String) (ips : List String) : SysState :=
  ips.foldl (fun s ip => (postView s now ip slug).2) st

/-- The empty backend: no counters, no rate-limit records, empty KV. -/
def st0 : SysState :=
  { views := fun _ => none, rates := fun _ => none,
    kvSingle := fun _ => none, kvBatch := fun _ => none }

/-! ### Batch read path (`GET /batch`, `getManyFromKV`, `writeManyToKV`) -/

/-- The aggregate cache key: the sorted, comma-joined slug list (the
`views:batch:v1:` key suffix).  JS `Array.prototype.sort` is modelled by
sorting with the linear order on strings. -/
def batchCacheKey (slugs : List String) : String :=
  String.intercalate (",") (slugs.insertionSort (· ≤ ·))

/-- The `hasAll` validation: the cached mapping has an entry for every
requested slug. -/
def hasAllSlugs (data : ViewMap) (slugs : List String) : Bool :=
  slugs.all fun s => (data.lookup s).isSome

/-- The per-slug fallback section of `getManyFromKV`: each slug is looked up
in the single-slug KV entries; hits are collected into `found` and misses
into `missing`. -/
def getEachFromKV (st : SysState) (slugs : List String) : ViewMap × List String :=
  (slugs.filterMap fun s => (st.kvSingle s).map fun v => (s, v),
   slugs.filter fun s => (st.kvSingle s).isNone)

/-- The function `getManyFromKV`: serve the cached aggregate mapping if it exists under
the sorted key and contains every requested slug; otherwise fall through to
the per-slug lookups. -/
def getManyFromKV (st : SysState) (slugs : List String) : ViewMap × List String :=
  match st.kvBatch (batchCacheKey slugs) with
  | some data => if hasAllSlugs data slugs then (data, []) else getEachFromKV st slugs
  | none => getEachFromKV st slugs

/-- The function `writeManyToKV`: write every entry of the mapping through to the
single-slug KV entries. -/
def writeManyToKV (kvSingle : String → Option Nat) (m : ViewMap) : String → Option Nat :=
  fun s => match m.lookup s with
    | some v => some v
    | none => kvSingle s

/-- The D1 remainder of a batch read: the counter-store rows for the slugs
the cache missed, or the empty mapping when nothing was missed (the route
skips the D1 query and the backfill in that case). -/
def dbRemainder (st : SysState) (missing : List String) : ViewMap :=
  if missing.isEmpty then [] else PageViewRepository.getMany st.views missing

/-- Responses of `GET /batch`.  The returned JS object is modelled
extensionally as a partial map from slug to count. -/
inductive BatchResponse
  | invalid
  | ok (views : String → Option Nat)

/-- The `GET /batch` handler: validate the batch size, consult
`getManyFromKV`, fetch the missing slugs from D1 and backfill their
single-slug KV entries (detached write modelled as landed), and merge:
every requested slug maps to its KV value, else its D1 value, else 0, while
extra keys of a served cached aggregate are passed through by the object
spread.  Query-string parsing is elided; the claims quantify over the parsed
slug list. -/
def getBatch (st : SysState) (slugs : List String) : BatchResponse × SysState :=
  if decide (slugs.length = 0) || decide (100 < slugs.length) then (.invalid, st)
  else
    let (found, missing) := getManyFromKV st slugs
    let dbResults : ViewMap :=
      if missing.isEmpty then [] else PageViewRepository.getMany st.views missing
    let st' :=
      if missing.isEmpty then st
      else { st with kvSingle := writeManyToKV st.kvSingle dbResults }
    (.ok fun s =>
      if s ∈ slugs then some ((found.lookup s).getD ((dbResults.lookup s).getD 0))
      else found.lookup s, st')

/-! ### Comments (`src/db/comments.ts`, `src/routes/comments.ts`, `src/utils/ratelimit.ts`) -/

/-- Comment moderation states (`pending`/`approved`/`spam` from the TS type,
plus `rejected` which `updateStatus` can write). -/
inductive CommentStatus
  | pending
  | approved
  | spam
  | rejected
deriving Repr, DecidableEq

/-- A row of the `comments` table.  `created_at`/timestamps are milliseconds
since epoch (the ISO-string comparison in the source is order-isomorphic to
comparing these numbers). -/
structure CommentRow where
  id : Int
  slug : String
  parent_id : Option Int
  author_name : String
  author_email : Option String
  author_website : Option String
  content : String
  status : CommentStatus
  ip_hash : String
  user_agent : String
  created_at : Nat
deriving Repr, DecidableEq

/-- One minute in milliseconds (`RATE_LIMIT_WINDOW = 60 * 1000`). -/
def RATE_LIMIT_WINDOW : Nat := 60 * 1000

/-- At most five comments per window (`RATE_LIMIT_MAX = 5`). -/
def RATE_LIMIT_MAX : Nat := 5

/-- Number of comments from this identity created strictly inside the
window: `created_at > now − RATE_LIMIT_WINDOW`, i.e.
`now < created_at + RATE_LIMIT_WINDOW`. -/
def inWindowCount (db : List CommentRow) (now : Nat) (ipHash : String) : Nat :=
  db.countP fun c => c.ip_hash == ipHash && decide (now < c.created_at + RATE_LIMIT_WINDOW)

/-- The comment rate limiter `checkRateLimit` of `src/utils/ratelimit.ts`:
count the identity's comments inside the window; allowed iff the count is
below `RATE_LIMIT_MAX`. -/
def RatelimitUtil.checkRateLimit (db : List CommentRow) (now : Nat) (ipHash : String) :
    Bool × Nat :=
  let count := inWindowCount db now ipHash
  (decide (count < RATE_LIMIT_MAX), RATE_LIMIT_MAX - count)

/-- Replace every occurrence of the character `c` by the string `r`. -/
def replaceChar (c : Char) (r : List Char) : List Char → List Char
  | [] => []
  | x :: xs => (if x = c then r else [x]) ++ replaceChar c r xs

/-- The function `sanitizeHtml`: the five sequential global replacements of the source
(`&`, then `<`, `>`, `"`, `'`), in the same order. -/
def sanitizeHtml (s : String) : String :=
  ⟨replaceChar (Char.ofNat 39) ("&#x27;".data)
    (replaceChar (Char.ofNat 34) ("&quot;".data)
      (replaceChar (Char.ofNat 62) ("&gt;".data)
        (replaceChar (Char.ofNat 60) ("&lt;".data)
          (replaceChar (Char.ofNat 38) ("&amp;".data) s.data))))⟩

/-- Fresh `AUTOINCREMENT` id for an insert: one more than the largest id in
the table. -/
def freshId (db : List CommentRow) : Int :=
  1 + db.foldr (fun c m => max c.id m) 0

/-- Validated body of `POST /api/comments/:slug` (the handler is modelled
after `zValidator` has accepted the body). -/
structure CreateCommentInput where
  author_name : String
  author_email : Option String
  author_website : Option String
  content : String
  parent_id : Option Int
deriving Repr, DecidableEq

/-- Responses of the comment-submission handler after validation:
`rateLimited429` is the HTTP 429 rate-limit rejection; `created` is the
HTTP 201 response carrying the stored row. -/
inductive SubmitResponse
  | rateLimited429
  | created (comment : CommentRow)
deriving Repr, DecidableEq

/-- The row stored by an admitted submission: sanitized author name and
content, `spam` status exactly when the scorer fires on the raw content and
author name (the insert-then-update of the source collapsed into the
inserted row), hashed identity, truncated user agent. -/
def newCommentRow (db : List CommentRow) (now : Nat) (ipHash userAgent slug : String)
    (input : CreateCommentInput) : CommentRow :=
  { id := freshId db
    slug := slug
    parent_id := input.parent_id
    author_name := sanitizeHtml input.author_name
    author_email := input.author_email
    author_website := input.author_website
    content := sanitizeHtml input.content
    status := if (checkSpam input.content input.author_name).isSpam then .spam else .pending
    ip_hash := ipHash
    user_agent := ⟨userAgent.data.take 500⟩
    created_at := now }

/-- The `POST /api/comments/:slug` handler after validation: rate limit (429
on denial, nothing written), then store the new row and return it. -/
def submitComment (db : List CommentRow) (now : Nat) (ipHash userAgent slug : String)
    (input : CreateCommentInput) : SubmitResponse × List CommentRow :=
  if !(RatelimitUtil.checkRateLimit db now ipHash).1 then (.rateLimited429, db)
  else
    let row := newCommentRow db now ipHash userAgent slug input
    (.created row, db ++ [row])

/-! ### Thread materializer (`CommentRepository.nestComments`) -/

/-- The parent test of the second pass:
`comment.parent_id && commentMap.has(comment.parent_id)`.  JS number
truthiness makes a `parent_id` of 0 falsy, so it never resolves even when a
comment with id 0 is present. -/
def parentResolves (ids : List Int) (p : Option Int) : Bool :=
  match p with
  | none => false
  | some v => !(v == 0) && decide (v ∈ ids)

/-- The materializer `nestComments`.  The mutated JS object graph (nodes with shared `replies`
arrays) is represented by its roots list together with the function sending
an id to the list of nodes pushed onto that id's `replies` array; both lists
keep the input order, as the two passes of the source do. -/
def nestComments (comments : List CommentRow) : List CommentRow × (Int → List CommentRow) :=
  let ids := comments.map fun c => c.id
  (comments.filter fun c => !parentResolves ids c.parent_id,
   fun pid => comments.filter fun c => parentResolves ids c.parent_id && c.parent_id == some pid)

/-! ### Concrete instances used by witnesses and counterexamples -/

/-- Root comment of the materializer example of spec §8. -/
def ex1 : CommentRow :=
  { id := 1
    slug := "s"
    parent_id := none
    author_name := "a"
    author_email := none
    author_website := none
    content := "c"
    status := .approved
    ip_hash := "h"
    user_agent := ""
    created_at := 0 }

/-- Reply to comment 1 in the materializer example. -/
def ex2 : CommentRow := { ex1 with id := 2, parent_id := some 1, created_at := 1 }

/-- Orphan comment (parent 99 absent) in the materializer example. -/
def ex3 : CommentRow := { ex1 with id := 3, parent_id := some 99, created_at := 2 }

/-- A comment with id 0 (ids are arbitrary numbers to `nestComments`). -/
def z0 : CommentRow := { ex1 with id := 0 }

/-- A comment whose `parent_id` 0 is the id of `z0`. -/
def z1 : CommentRow := { ex1 with id := 1, parent_id := some 0, created_at := 1 }

/-- A comment from identity `"ip"` created at time `t`. -/
def mkRow (t : Nat) : CommentRow := { ex1 with created_at := t, ip_hash := "ip" }

/-- Five comments from the same identity within one minute. -/
def db5 : List CommentRow := [mkRow 1000, mkRow 2000, mkRow 3000, mkRow 4000, mkRow 5000]

/-- A backend state in which every rate-limit key has a fresh record and
every counter reads 4. -/
def stDenied : SysState :=
  { views := fun _ => some 4, rates := fun _ => some 0,
    kvSingle := fun _ => none, kvBatch := fun _ => none }

/-- A backend state whose batch-aggregate cache holds (under every key) a
mapping covering only slug `"a"`. -/
def stPartialAgg : SysState :=
  { views := fun _ => none, rates := fun _ => none,
    kvSingle := fun s => if s = "b" then some 7 else none,
    kvBatch := fun _ => some [("a", 5)] }

/-! ## Theorems -/

/-- Accumulating 2 per satisfied element of a fold equals twice the count of
satisfied elements. -/
theorem foldl_two_countP {α : Type} (p : α → Bool) (L : List α) (n : Nat) :
    L.foldl (fun s k => if p k then s + 2 else s) n = n + 2 * L.countP p := by
  induction L generalizing n with
  | nil => simp
  | cons a L ih =>
    simp only [List.foldl_cons, List.countP_cons, ih]
    by_cases h : p a = true
    · simp [h]
      omega
    · simp [h]

/-- The keyword loop of `checkSpam` contributes exactly 2 per matched
keyword. -/
theorem keywordFold_eq (l : List Char) :
    keywordFold l = 2 * SPAM_KEYWORDS.countP fun k => includesList k.data l := by
  unfold keywordFold
  rw [foldl_two_countP, Nat.zero_add]

/-- The count returned by an increment is the previous count plus one. -/
theorem increment_fst (st : ViewStore) (slug : String) :
    (PageViewRepository.increment st slug).1 = PageViewRepository.get st slug + 1 := by
  unfold PageViewRepository.increment PageViewRepository.get
  cases h : st slug <;> simp [h]

/-- Reading a counter after one atomic increment: the incremented slug grew
by one, every other slug is untouched. -/
theorem get_increment (st : ViewStore) (s x : String) :
    PageViewRepository.get ((PageViewRepository.increment st s).2) x
      = if x = s then PageViewRepository.get st x + 1 else PageViewRepository.get st x := by
  unfold PageViewRepository.increment PageViewRepository.get upd
  cases h : st s with
  | none => by_cases hx : x = s <;> simp [hx, h]
  | some n => by_cases hx : x = s <;> simp [hx, h]

/-- Replaying any interleaved schedule of atomic increments adds, for each
slug, exactly the number of increments addressed to it. -/
theorem get_applySchedule (sched : List String) : ∀ (st : ViewStore) (slug : String),
    PageViewRepository.get (applySchedule st sched) slug
      = PageViewRepository.get st slug + sched.count slug := by
  induction sched with
  | nil => intro st slug; simp [applySchedule]
  | cons s rest ih =>
    intro st slug
    have hfold : applySchedule st (s :: rest)
        = applySchedule ((PageViewRepository.increment st s).2) rest := rfl
    rw [hfold, ih, get_increment]
    by_cases h : slug = s
    · subst h; simp [List.count_cons]
      omega
    · simp [List.count_cons, h]

/-- Claim C1: `increment(slug)` is the single atomic insert-or-update-and-
return operation of the counter store: it creates the counter at 1 when the
slug has no row, otherwise adds exactly 1, returns the new total, and —
being one atomic step — loses no concurrent increment: any interleaving of
atomic increments leaves each slug's counter grown by exactly the number of
increments addressed to it. -/
theorem increment_atomic_spec (st : ViewStore) (slug : String) :
    (st slug = none →
      PageViewRepository.increment st slug = (1, upd st slug 1)) ∧
    (∀ n, st slug = some n →
      PageViewRepository.increment st slug = (n + 1, upd st slug (n + 1))) ∧
    (PageViewRepository.increment st slug).1 = PageViewRepository.get st slug + 1 ∧
    (∀ sched : List String,
      PageViewRepository.get (applySchedule st sched) slug
        = PageViewRepository.get st slug + sched.count slug) := by
  refine ⟨fun h => ?_, fun n h => ?_, increment_fst st slug,
    fun sched => get_applySchedule sched st slug⟩
  · unfold PageViewRepository.increment; rw [h]
  · unfold PageViewRepository.increment; rw [h]

/-- Witness for C1: starting from an empty store, an increment of `"a"`
creates the counter at 1, and the schedule `["a", "b", "a"]` leaves
`"a"` at 2. -/
theorem increment_atomic_spec_witness :
    PageViewRepository.increment (fun _ => none) "a" = (1, upd (fun _ => none) "a" 1) ∧
    PageViewRepository.get (applySchedule (fun _ => none) ["a", "b", "a"]) "a" = 2 := by
  have h := increment_atomic_spec (fun _ => none) "a"
  refine ⟨h.1 rfl, ?_⟩
  rw [(h.2.2.2) ["a", "b", "a"]]
  decide

/-- Claim C10: the spam check is independent of the author name — the
parameter is lowercased but inspected by no rule, so any two author names
yield the same result on the same content. -/
theorem checkSpam_author_independent (content a1 a2 : String) :
    checkSpam content a1 = checkSpam content a2 := rfl

set_option maxHeartbeats 2000000 in
/-- Claim C5: the spam score of `checkSpam` equals the specification's sum
of rule contributions — 2 per matched denylist keyword, 3 for a suspicious
link, the link count when above 3, 1 for length out of [5, 5000], 3 when
the link-stripped text is shorter than 10 while a link is present — and
`isSpam` holds exactly when that total reaches 3. -/
theorem checkSpam_matches_spec (content authorName : String) :
    (checkSpam content authorName).score = specSpamScore content ∧
    (checkSpam content authorName).isSpam = specIsSpam content := by
  simp only [checkSpam, specSpamScore, specIsSpam, keywordFold_eq]
  set kw := 2 * SPAM_KEYWORDS.countP (fun k => includesList k.data (lowerChars content.data)) with hkw
  set sus := susLink (lowerChars content.data) with hsus
  set lc := countLinks content.data with hlc
  set t := (trimJS (stripLinks content.data)).length with ht
  set n := content.data.length with hn
  constructor
  · split_ifs <;> dsimp only <;> omega
  · split_ifs <;> dsimp only <;> symm <;>
      first
      | (rw [decide_eq_true_eq]; omega)
      | (rw [decide_eq_false_iff_not]; omega)

/-- Claim C3: a view-increment request denied by the rate limiter receives a
successful response carrying the current counter value obtained by a read
(the KV entry, else the counter store), the whole backend state — in
particular the counter — is unchanged and no error is surfaced, while a
rate-limited comment submission is rejected with the HTTP 429 rate-limit
error and stores nothing. -/
theorem rateLimit_denial_spec (st : SysState) (now : Nat) (ipHash slug : String)
    (db : List CommentRow) (cnow : Nat) (cip ua cslug : String) (input : CreateCommentInput)
    (hv : validSlug slug = true)
    (hdenied : (PageviewsRoute.checkRateLimit st.rates now ipHash slug).1.1 = false)
    (hcdenied : (RatelimitUtil.checkRateLimit db cnow cip).1 = false) :
    postView st now ipHash slug
      = (.rateLimited ((st.kvSingle slug).getD (PageViewRepository.get st.views slug)), st) ∧
    submitComment db cnow cip ua cslug input = (.rateLimited429, db) := by
  constructor
  · unfold postView
    rw [if_neg (by rw [hv]; decide)]
    rcases h : PageviewsRoute.checkRateLimit st.rates now ipHash slug with ⟨⟨b, rem⟩, rl⟩
    rw [h] at hdenied
    dsimp only at hdenied
    subst hdenied
    dsimp only
    cases hk : st.kvSingle slug <;> simp [hk]
  · unfold submitComment
    rw [hcdenied]
    simp

/-- Claim C4: comment submission is rate limited per identity with window
`RATE_LIMIT_WINDOW` (60 seconds) and maximum `RATE_LIMIT_MAX` (5) admitted
comments, as a count-within-window check: once five comments from the
identity lie strictly inside the window the next submission is rejected
with the HTTP 429 rate-limit error and nothing is stored, and as soon as
the window has elapsed for every prior comment the next submission is
admitted and stored. -/
theorem comment_rateLimit_spec (db : List CommentRow) (now : Nat) (ipHash ua slug : String)
    (input : CreateCommentInput) :
    RATE_LIMIT_WINDOW = 60000 ∧ RATE_LIMIT_MAX = 5 ∧
    (RATE_LIMIT_MAX ≤ inWindowCount db now ipHash →
      submitComment db now ipHash ua slug input = (.rateLimited429, db)) ∧
    ((∀ c ∈ db, c.ip_hash = ipHash → c.created_at + RATE_LIMIT_WINDOW ≤ now) →
      ∃ row, submitComment db now ipHash ua slug input = (.created row, db ++ [row])) := by
  refine ⟨rfl, rfl, fun h => ?_, fun h => ?_⟩
  · have hd : (RatelimitUtil.checkRateLimit db now ipHash).1 = false := by
      unfold RatelimitUtil.checkRateLimit
      dsimp only
      rw [decide_eq_false_iff_not]
      omega
    unfold submitComment
    rw [hd]
    simp
  · have hc : inWindowCount db now ipHash = 0 := by
      unfold inWindowCount
      rw [List.countP_eq_zero]
      intro c hcmem
      simp only [Bool.and_eq_true, beq_iff_eq, decide_eq_true_eq, not_and]
      intro heq
      have := h c hcmem heq
      omega
    refine ⟨newCommentRow db now ipHash ua slug input, ?_⟩
    unfold submitComment RatelimitUtil.checkRateLimit
    rw [hc]
    rfl

/-- Counterexample to claim C9 as stated: in `[z0, z1]` (creation times
ascending), `z1.parent_id` is 0, the id of `z0` in the same input, yet `z1`
is demoted to a root and `z0`'s child list stays empty: the JS truthiness
test `comment.parent_id && commentMap.has(comment.parent_id)` treats a
`parent_id` of 0 as absent. -/
theorem nestComments_zero_id_counterexample :
    z0.created_at ≤ z1.created_at ∧
    z1.parent_id = some z0.id ∧
    z0 ∈ [z0, z1] ∧
    (nestComments [z0, z1]).1 = [z0, z1] ∧
    (nestComments [z0, z1]).2 z0.id = [] := by decide

/-- Claim C9 (amended): every comment whose `parent_id` is null, is 0, or
does not resolve to the id of a comment in the same input is placed as a
root rather than failing, and every other comment is assigned to its
parent's child list (and is then not a root); the example input with ids
1, 2 (child of 1) and 3 (parent 99 absent) yields exactly the two roots 1
and 3 in that relative order, with 2 the single child of 1. -/
theorem nestComments_spec (comments : List CommentRow) (c : CommentRow) (hc : c ∈ comments) :
    (parentResolves (comments.map fun x => x.id) c.parent_id = false →
      c ∈ (nestComments comments).1) ∧
    (∀ p, c.parent_id = some p → p ≠ 0 → p ∈ comments.map (fun x => x.id) →
      c ∈ (nestComments comments).2 p ∧ c ∉ (nestComments comments).1) ∧
    ((nestComments [ex1, ex2, ex3]).1 = [ex1, ex3] ∧
     (nestComments [ex1, ex2, ex3]).2 1 = [ex2] ∧
     (nestComments [ex1, ex2, ex3]).2 2 = [] ∧
     (nestComments [ex1, ex2, ex3]).2 3 = []) := by
  refine ⟨fun h => ?_, fun p hp hp0 hmem => ?_, by decide⟩
  · unfold nestComments
    dsimp only
    rw [List.mem_filter]
    exact ⟨hc, by simp [h]⟩
  · have hres : parentResolves (comments.map fun x => x.id) c.parent_id = true := by
      rw [hp]
      unfold parentResolves
      simp [hp0, hmem]
    refine ⟨?_, ?_⟩
    · unfold nestComments
      dsimp only
      rw [List.mem_filter]
      refine ⟨hc, ?_⟩
      rw [hres]
      simp [hp]
    · unfold nestComments
      dsimp only
      rw [List.mem_filter]
      rintro ⟨-, habs⟩
      rw [hres] at habs
      exact absurd habs (by decide)

/-- Witness for C9: the amended root rule applied to the orphan `ex3` of the
concrete example, whose parent 99 is absent from the input. -/
theorem nestComments_spec_witness :
    ex3 ∈ (nestComments [ex1, ex2, ex3]).1 ∧
    ex2 ∈ (nestComments [ex1, ex2, ex3]).2 1 := by
  have h3 := nestComments_spec [ex1, ex2, ex3] ex3 (by decide)
  have h2 := nestComments_spec [ex1, ex2, ex3] ex2 (by decide)
  exact ⟨h3.1 (by decide), ((h2.2.1 1 rfl (by decide) (by decide)).1)⟩

/-- Claim C7: a cached batch aggregate is served only when it covers every
requested slug (`hasAll`); otherwise the whole entry is a full miss — the
result is exactly the per-slug fallback, identical to what the route
computes with the aggregate entry deleted, so no part of the cached mapping
is served directly. -/
theorem batch_hasAll_gate (st : SysState) (slugs : List String) (data : ViewMap)
    (hcached : st.kvBatch (batchCacheKey slugs) = some data) :
    (hasAllSlugs data slugs = true → getManyFromKV st slugs = (data, [])) ∧
    (hasAllSlugs data slugs = false →
      getManyFromKV st slugs = getEachFromKV st slugs ∧
      getManyFromKV st slugs
        = getManyFromKV
            { st with kvBatch := fun k => if k = batchCacheKey slugs then none else st.kvBatch k }
            slugs) := by
  constructor
  · intro h
    unfold getManyFromKV
    rw [hcached]
    dsimp only
    rw [h]
    simp
  · intro h
    have h1 : getManyFromKV st slugs = getEachFromKV st slugs := by
      unfold getManyFromKV
      rw [hcached]
      dsimp only
      rw [h]
      simp
    refine ⟨h1, ?_⟩
    rw [h1]
    show getEachFromKV st slugs = getManyFromKV _ slugs
    unfold getManyFromKV
    dsimp only
    rw [if_pos rfl]
    rfl

/-- Witness for C7: with every aggregate entry covering only `"a"`, the
batch read of `["a", "b"]` ignores the cached mapping entirely and returns
the per-slug lookups (a hit for `"b"`, a miss for `"a"`). -/
theorem batch_hasAll_gate_witness :
    getManyFromKV stPartialAgg ["a", "b"] = getEachFromKV stPartialAgg ["a", "b"] ∧
    getManyFromKV stPartialAgg ["a", "b"] = ([("b", 7)], ["a"]) := by
  have h := batch_hasAll_gate stPartialAgg ["a", "b"] [("a", 5)] rfl
  refine ⟨(h.2 (by decide)).1, ?_⟩
  rw [(h.2 (by decide)).1]
  decide

/-- Witness for C3: with a fresh rate-limit record on every key and every
counter at 4, the denied view increment answers success with the read value
4 and changes nothing, while the sixth comment of `db5`'s identity inside
the window is rejected with 429. -/
theorem rateLimit_denial_spec_witness :
    postView stDenied 0 "i" "a" = (.rateLimited 4, stDenied) ∧
    submitComment db5 6000 "ip" "ua" "s" ⟨"n", none, none, "hello", none⟩
      = (.rateLimited429, db5) := by
  have h := rateLimit_denial_spec stDenied 0 "i" "a" db5 6000 "ip" "ua" "s"
    ⟨"n", none, none, "hello", none⟩ (by decide) (by rfl) (by decide)
  exact ⟨by rw [h.1]; rfl, h.2⟩

/-- Witness for C4: after the five comments of `db5`, a sixth submission at
6 s is rejected with 429, and the first submission after the window has
elapsed for all five is admitted and stored. -/
theorem comment_rateLimit_spec_witness :
    submitComment db5 6000 "ip" "ua" "s" ⟨"n", none, none, "hi", none⟩ = (.rateLimited429, db5) ∧
    ∃ row, submitComment db5 65001 "ip" "ua" "s" ⟨"n", none, none, "hi", none⟩
      = (.created row, db5 ++ [row]) := by
  refine ⟨(comment_rateLimit_spec db5 6000 "ip" "ua" "s" _).2.2.1 (by decide),
    (comment_rateLimit_spec db5 65001 "ip" "ua" "s" _).2.2.2 (by decide)⟩

/-- Counterexample to claim C2 as stated: two sequential `incrementView("a")`
calls from one caller (same identity, within the 5-minute dedup window)
leave the counter at 1 — the second call is denied by the rate limiter — so
`getView("a")` returns 1, not 2. -/
theorem incrementView_seq_counterexample :
    (getViewRoute (runIncrements st0 0 "a" ["i", "i"]) "a").1 = GetViewResponse.ok 1 ∧
    (1 : Nat) ≠ 2 := by
  exact ⟨by decide, by decide⟩

/-- An admitted `POST /:slug` call: with a valid slug and no rate-limit
record for the caller's key, the handler increments the counter, records
the admission, writes the new count through to KV, and returns it. -/
theorem postView_admitted (st : SysState) (ip slug : String)
    (hs : validSlug slug = true) (hkey : st.rates (viewKey ip slug) = none) :
    postView st 0 ip slug
      = (.counted (PageViewRepository.get st.views slug + 1),
         { st with views := (PageViewRepository.increment st.views slug).2,
                   rates := upd st.rates (viewKey ip slug) 0,
                   kvSingle := upd st.kvSingle slug (PageViewRepository.get st.views slug + 1) }) := by
  unfold postView
  rw [if_neg (by rw [hs]; decide)]
  unfold PageviewsRoute.checkRateLimit
  rw [hkey]
  dsimp only
  rcases hi : PageViewRepository.increment st.views slug with ⟨count, views1⟩
  dsimp only
  have h1 : count = PageViewRepository.get st.views slug + 1 := by
    have h2 := increment_fst st.views slug
    rw [hi] at h2
    exact h2
  rw [h1]

/-- For a fixed slug, distinct identities produce distinct rate-limit keys. -/
theorem viewKey_inj (a b slug : String) (h : viewKey a slug = viewKey b slug) : a = b := by
  have hd := congrArg String.data h
  simp only [viewKey, String.data_append, List.append_assoc] at hd
  exact String.ext (List.append_cancel_right hd)

/-- The two Bool disjuncts of a valid slug needed by `GET /:slug`. -/
theorem validSlug_getView_ok (slug : String) (hs : validSlug slug = true) :
    (decide (slug.data = []) || decide (500 < slug.data.length)) = false := by
  unfold validSlug at hs
  simp only [Bool.not_eq_true', Bool.or_eq_false_iff] at hs
  simp only [Bool.or_eq_false_iff]
  exact ⟨hs.1.1.1, hs.1.1.2⟩

/-- Running admitted increments accumulates: starting from any state with
no rate-limit record for any listed identity, the counter grows by the
number of calls and (when there was at least one call) the KV entry holds
the final count. -/
theorem runIncrements_build (slug : String) (hs : validSlug slug = true) :
    ∀ ips : List String, ips.Nodup →
      ∀ st : SysState, (∀ ip ∈ ips, st.rates (viewKey ip slug) = none) →
      PageViewRepository.get (runIncrements st 0 slug ips).views slug
          = PageViewRepository.get st.views slug + ips.length ∧
      (ips = [] ∨ (runIncrements st 0 slug ips).kvSingle slug
          = some (PageViewRepository.get (runIncrements st 0 slug ips).views slug)) := by
  intro ips
  induction ips with
  | nil =>
    intro _ st _
    exact ⟨by simp [runIncrements], Or.inl rfl⟩
  | cons ip rest ih =>
    intro hnodup st hfresh
    have hkey : st.rates (viewKey ip slug) = none := hfresh ip (List.mem_cons_self ip rest)
    have hrun : runIncrements st 0 slug (ip :: rest)
        = runIncrements (postView st 0 ip slug).2 0 slug rest := rfl
    rw [hrun, postView_admitted st ip slug hs hkey]
    dsimp only
    have hnodup' : rest.Nodup := (List.nodup_cons.mp hnodup).2
    have hnotmem : ip ∉ rest := (List.nodup_cons.mp hnodup).1
    have hfresh' : ∀ ip' ∈ rest,
        (upd st.rates (viewKey ip slug) 0) (viewKey ip' slug) = none := by
      intro ip' hmem
      unfold upd
      rw [if_neg, hfresh ip' (List.mem_cons_of_mem ip hmem)]
      intro hk
      exact hnotmem (viewKey_inj ip' ip slug hk ▸ hmem)
    have hmain := ih hnodup'
      { st with views := (PageViewRepository.increment st.views slug).2,
                rates := upd st.rates (viewKey ip slug) 0,
                kvSingle := upd st.kvSingle slug (PageViewRepository.get st.views slug + 1) }
      hfresh'
    have hget1 : PageViewRepository.get ((PageViewRepository.increment st.views slug).2) slug
        = PageViewRepository.get st.views slug + 1 := by
      rw [get_increment]
      simp
    constructor
    · rw [hmain.1]
      dsimp only
      rw [hget1]
      simp only [List.length_cons]
      omega
    · right
      rcases hmain.2 with hnil | hkv
      · subst hnil
        show (upd st.kvSingle slug (PageViewRepository.get st.views slug + 1)) slug
            = some (PageViewRepository.get ((PageViewRepository.increment st.views slug).2) slug)
        rw [hget1]
        unfold upd
        rw [if_pos rfl]
      · exact hkv

/-- Claim C2 (amended): N sequential `incrementView(s)` calls, each admitted
by the rate limiter — here, one call per identity for N pairwise-distinct
identities — starting from no counter for s, result in `getView(s)`
returning N; with a single identity inside the 5-minute dedup window only
the first call increments, so `getView(s)` returns 1 (see the
counterexample). -/
theorem incrementView_admitted_spec (slug : String) (ips : List String)
    (hs : validSlug slug = true) (hnodup : ips.Nodup) :
    (getViewRoute (runIncrements st0 0 slug ips) slug).1 = GetViewResponse.ok ips.length := by
  have h := runIncrements_build slug hs ips hnodup st0 (fun ip _ => rfl)
  have hget0 : PageViewRepository.get st0.views slug = 0 := rfl
  rcases h with ⟨hlen, hnil | hkv⟩
  · subst hnil
    unfold getViewRoute
    rw [validSlug_getView_ok slug hs]
    simp [runIncrements, st0, PageViewRepository.get]
  · unfold getViewRoute
    rw [validSlug_getView_ok slug hs]
    rw [hget0] at hlen
    simp only [Bool.false_eq_true, if_false, hkv, hlen, Nat.zero_add]

/-- Witness for the amended C2: two admitted calls (distinct identities)
for slug `"a"` leave `getView("a")` at 2. -/
theorem incrementView_admitted_spec_witness :
    (getViewRoute (runIncrements st0 0 "a" ["i", "j"]) "a").1 = GetViewResponse.ok 2 :=
  incrementView_admitted_spec ("a") ["i", "j"] (by decide) (by decide)

/-- Looking a key up in the map built from per-key cache lookups returns the
underlying map's value exactly on listed keys. -/
theorem lookup_filterMap_single (f : String → Option Nat) (l : List String) (x : String) :
    (l.filterMap fun s => (f s).map fun v => (s, v)).lookup x
      = if x ∈ l then f x else none := by
  induction l with
  | nil => simp
  | cons a l ih =>
    cases hfa : f a with
    | none =>
      simp only [List.filterMap_cons, hfa, Option.map_none']
      rw [ih]
      by_cases hx : x = a
      · subst hx; simp [hfa]
      · simp [hx]
    | some v =>
      simp only [List.filterMap_cons, hfa, Option.map_some']
      by_cases hx : x = a
      · subst hx; simp [List.lookup, hfa]
      · have hxa : (x == a) = false := by simp [hx]
        simp only [List.lookup, hxa]
        rw [ih]
        simp [hx]

/-- Membership in the `missing` list of the per-slug fallback. -/
theorem missing_mem (st : SysState) (l : List String) (x : String) :
    x ∈ (getEachFromKV st l).2 ↔ x ∈ l ∧ st.kvSingle x = none := by
  unfold getEachFromKV
  rw [List.mem_filter]
  simp [Option.isNone_iff_eq_none]

/-- Lookup in the `found` map of the per-slug fallback. -/
theorem found_lookup (st : SysState) (l : List String) (x : String) :
    ((getEachFromKV st l).1).lookup x = if x ∈ l then st.kvSingle x else none := by
  unfold getEachFromKV
  exact lookup_filterMap_single st.kvSingle l x

/-- Lookup in the D1 remainder fetched for the per-slug misses. -/
theorem db_lookup (st : SysState) (l : List String) (x : String) :
    (dbRemainder st ((getEachFromKV st l).2)).lookup x
      = if x ∈ l ∧ st.kvSingle x = none then st.views x else none := by
  unfold dbRemainder
  by_cases hm : ((getEachFromKV st l).2).isEmpty = true
  · rw [if_pos hm]
    have hempty : (getEachFromKV st l).2 = [] := by
      rwa [List.isEmpty_iff] at hm
    have hnot : ¬(x ∈ l ∧ st.kvSingle x = none) := by
      rw [← missing_mem st l x, hempty]
      simp
    simp [hnot]
  · rw [if_neg hm]
    unfold PageViewRepository.getMany
    rw [lookup_filterMap_single st.views ((getEachFromKV st l).2) x]
    simp only [missing_mem]

/-- The `hasAll` validation only depends on the set of requested slugs. -/
theorem hasAllSlugs_perm (data : ViewMap) (l1 l2 : List String) (hp : l1.Perm l2) :
    hasAllSlugs data l1 = hasAllSlugs data l2 := by
  unfold hasAllSlugs
  rw [Bool.eq_iff_iff]
  simp only [List.all_eq_true]
  constructor
  · intro h s hs; exact h s (hp.mem_iff.mpr hs)
  · intro h s hs; exact h s (hp.mem_iff.mp hs)

/-- The aggregate cache key is invariant under reordering of the slug list:
it is built from the sorted slug list. -/
theorem batchCacheKey_perm (l1 l2 : List String) (hp : l1.Perm l2) :
    batchCacheKey l1 = batchCacheKey l2 := by
  unfold batchCacheKey
  congr 1
  refine List.eq_of_perm_of_sorted
    ((List.perm_insertionSort _ l1).trans (hp.trans (List.perm_insertionSort _ l2).symm))
    (List.sorted_insertionSort _ l1) (List.sorted_insertionSort _ l2)

/-- Full normal form of a validated `GET /batch` call: response values and
the backfilled post-state, in terms of `getManyFromKV`. -/
theorem getBatch_eq (st : SysState) (l : List String)
    (hv : (decide (l.length = 0) || decide (100 < l.length)) = false) :
    getBatch st l
      = (.ok fun s =>
          if s ∈ l then
            some ((((getManyFromKV st l).1).lookup s).getD
              (((dbRemainder st ((getManyFromKV st l).2)).lookup s).getD 0))
          else ((getManyFromKV st l).1).lookup s,
        { st with kvSingle := writeManyToKV st.kvSingle (dbRemainder st ((getManyFromKV st l).2)) }) := by
  unfold getBatch dbRemainder
  rw [hv, if_neg (by decide)]
  rcases hg : getManyFromKV st l with ⟨found, missing⟩
  dsimp only
  by_cases hm : missing.isEmpty = true
  · simp only [hm]
    rfl
  · rw [Bool.not_eq_true] at hm
    simp only [hm]
    rfl

/-- A batch lookup that cannot be served from the aggregate entry under its
key falls through to the per-slug section. -/
theorem getMany_each_of_not_hasAll (stB : SysState) (l1 l2 : List String)
    (hkey : batchCacheKey l2 = batchCacheKey l1)
    (hmiss : ∀ data, stB.kvBatch (batchCacheKey l1) = some data → hasAllSlugs data l2 = false) :
    getManyFromKV stB l2 = getEachFromKV stB l2 := by
  unfold getManyFromKV
  rw [hkey]
  cases hb : stB.kvBatch (batchCacheKey l1) with
  | none => rfl
  | some data =>
    dsimp only
    rw [hmiss data hb]
    simp

/-- Pointwise shape of a second batch call that takes the per-slug path on
the backfilled state: it returns the same mapping as the first call. -/
theorem order_indep_each (st stA : SysState) (l1 l2 : List String) (hperm : l1.Perm l2)
    (hv2 : (decide (l2.length = 0) || decide (100 < l2.length)) = false)
    (hstA : stA = { st with kvSingle := writeManyToKV st.kvSingle (dbRemainder st ((getEachFromKV st l1).2)) })
    (h2 : getManyFromKV stA l2 = getEachFromKV stA l2) :
    (getBatch stA l2).1
      = BatchResponse.ok fun s =>
          if s ∈ l1 then
            some ((((getEachFromKV st l1).1).lookup s).getD
              (((dbRemainder st ((getEachFromKV st l1).2)).lookup s).getD 0))
          else ((getEachFromKV st l1).1).lookup s := by
  rw [getBatch_eq stA l2 hv2, h2]
  have hkvA : ∀ x, stA.kvSingle x
      = match (dbRemainder st ((getEachFromKV st l1).2)).lookup x with
        | some v => some v
        | none => st.kvSingle x := by
    intro x
    rw [hstA]
    rfl
  have hviewsA : stA.views = st.views := by rw [hstA]
  dsimp only
  congr 1
  funext s
  rw [found_lookup stA l2 s, db_lookup stA l2 s, found_lookup st l1 s, db_lookup st l1 s,
    hviewsA, hkvA s, db_lookup st l1 s]
  by_cases hs : s ∈ l1
  · have hs2 : s ∈ l2 := hperm.mem_iff.mp hs
    cases hA : st.kvSingle s with
    | some a => simp [hs, hs2, hA]
    | none =>
      cases hV : st.views s with
      | some v => simp [hs, hs2, hA, hV]
      | none => simp [hs, hs2, hA, hV]
  · have hs2 : s ∉ l2 := fun h => hs (hperm.mem_iff.mpr h)
    simp [hs, hs2]

/-- Claim C6: `getViewsBatch` is order-independent in its slug list —
calling it and then immediately calling it again with a permutation of the
slugs (in particular `["a","b"]` then `["b","a"]`) returns the identical
slug-to-count mapping, the aggregate cache key being derived from the
sorted, comma-joined slug list. -/
theorem getViewsBatch_order_independent (st : SysState) (l1 l2 : List String)
    (hperm : l1.Perm l2) (hne : l1 ≠ []) (hlen : l1.length ≤ 100) :
    (getBatch (getBatch st l1).2 l2).1 = (getBatch st l1).1 := by
  have hv1 : (decide (l1.length = 0) || decide (100 < l1.length)) = false := by
    simp only [Bool.or_eq_false_iff, decide_eq_false_iff_not]
    exact ⟨fun h => hne (List.length_eq_zero.mp h), by omega⟩
  have hv2 : (decide (l2.length = 0) || decide (100 < l2.length)) = false := by
    rw [← hperm.length_eq]; exact hv1
  have hkey : batchCacheKey l2 = batchCacheKey l1 := batchCacheKey_perm l2 l1 hperm.symm
  rw [getBatch_eq st l1 hv1]
  dsimp only
  by_cases hhit : ∃ d, st.kvBatch (batchCacheKey l1) = some d ∧ hasAllSlugs d l1 = true
  · obtain ⟨data, hb, hall⟩ := hhit
    have hall2 : hasAllSlugs data l2 = true := by
      rw [← hasAllSlugs_perm data l1 l2 hperm]; exact hall
    have h1 : getManyFromKV st l1 = (data, []) := by
      unfold getManyFromKV
      rw [hb]
      simp [hall]
    rw [h1]
    dsimp only
    have hstA : ({ st with kvSingle := writeManyToKV st.kvSingle (dbRemainder st ([] : List String)) } : SysState) = st := rfl
    rw [hstA, getBatch_eq st l2 hv2]
    have h2 : getManyFromKV st l2 = (data, []) := by
      unfold getManyFromKV
      rw [hkey, hb]
      simp [hall2]
    rw [h2]
    dsimp only
    congr 1
    funext s
    by_cases hs : s ∈ l1
    · rw [if_pos hs, if_pos (hperm.mem_iff.mp hs)]
    · rw [if_neg hs, if_neg (fun h => hs (hperm.mem_iff.mpr h))]
  · have hmiss1 : ∀ d, st.kvBatch (batchCacheKey l1) = some d → hasAllSlugs d l1 = false := by
      intro d hd
      cases hA : hasAllSlugs d l1 with
      | false => rfl
      | true => exact absurd ⟨d, hd, hA⟩ hhit
    have h1 : getManyFromKV st l1 = getEachFromKV st l1 :=
      getMany_each_of_not_hasAll st l1 l1 rfl hmiss1
    rw [h1]
    refine order_indep_each st _ l1 l2 hperm hv2 rfl
      (getMany_each_of_not_hasAll _ l1 l2 hkey ?_)
    intro d hd
    have hd' : st.kvBatch (batchCacheKey l1) = some d := hd
    rw [← hasAllSlugs_perm d l1 l2 hperm]
    exact hmiss1 d hd'

/-- Witness for C6: from the empty backend, the batch read of `["a","b"]`
followed immediately by `["b","a"]` returns the identical mapping. -/
theorem getViewsBatch_order_independent_witness :
    (getBatch (getBatch st0 ["a", "b"]).2 ["b", "a"]).1 = (getBatch st0 ["a", "b"]).1 :=
  getViewsBatch_order_independent st0 ["a", "b"] ["b", "a"] (by decide) (by decide) (by decide)

/-- For claim C8: the batch route re-derives and merges on a miss but never
writes the batch-aggregate cache key — the post-state's aggregate entries
are exactly the pre-state's, for every input, so the aggregate entry read
by `getManyFromKV` can never have been populated by this service. -/
theorem getBatch_never_writes_aggregate (st : SysState) (slugs : List String) :
    ((getBatch st slugs).2).kvBatch = st.kvBatch := by
  unfold getBatch
  by_cases h : (decide (slugs.length = 0) || decide (100 < slugs.length)) = true
  · rw [if_pos h]
  · rw [if_neg h]
    rcases hg : getManyFromKV st slugs with ⟨found, missing⟩
    dsimp only
    by_cases hm : missing.isEmpty = true <;> simp [hm]

end KonBlog
